import Mathlib

/-!
Verification of the image-compression core of this repository.

The repository holds two Python files, src/compress.py and src/compress_ui.py.
Each contains a function compress_image performing an integer binary search
over an encoder quality parameter, and a function process_directory walking a
directory tree and invoking compress_image per image file.  This file embeds
those functions shallowly: machine integers become Int, the encoder becomes an
abstract size function, the filesystem becomes explicit data, and the
PermissionError retry loop is driven by an abstract per-save failure count.
-/

/-- The distinct underlying exceptions that can arise inside compress_image:
FileNotFoundError from os.path.getsize on a missing input, ValueError for an
input already at or under the target size, PermissionError after retry
exhaustion, and a decode failure from Image.open on an unreadable file. -/
inductive RawErr
  | fileNotFound
  | valueAlreadyUnder
  | permDenied
  | decodeFailed
deriving DecidableEq, Repr

/-- The error value that actually escapes compress_image.  The outer handler
of compress_image catches every exception e and re-raises a plain generic
Exception whose message embeds str of e, so the only constructor is the
generic wrapper; the wrapped tag records which message text was embedded. -/
inductive PyError
  | exception (inner : RawErr)
deriving DecidableEq, Repr

/-- The Python runtime type name of the raised error object.  Every error
raised by compress_image is constructed by the bare Exception class, so the
type name is the same for every failure class. -/
def pyTypeName : PyError → List Char
  | .exception _ => ("Exception").toList

/-- Outcome of one call to compress_image: either the function returned
normally (it has no return statement, so nothing is returned) or it raised. -/
inductive CompressResult
  | ok
  | error (e : PyError)
deriving DecidableEq, Repr

/-- Abstraction of the input file: whether the path exists, its byte size as
reported by os.path.getsize, and whether Image.open can decode it. -/
structure InputFile where
  found : Bool
  size : Int
  decodable : Bool
deriving DecidableEq, Repr

/-- Observable trace of one call to compress_image: the result, the final
value of the local variable best_quality, the sequence of qualities of the
successful img.save calls on output_path in order (so the file finally on disk
is the encoding at the last element), and whether the success statistics were
printed. -/
structure CompressRun where
  result : CompressResult
  best_quality : Option Int
  writes : List Int
  printed : Bool
deriving DecidableEq, Repr

/-- Result of the binary-search while loop: either the loop exited normally
with the final best_quality, the accumulated successful writes and the next
save index, or a PermissionError escaped after retry exhaustion. -/
inductive LoopResult
  | ok (best : Option Int) (writes : List Int) (nextSave : Nat)
  | permErr (best : Option Int) (writes : List Int)
deriving DecidableEq, Repr

/-- The value of the local variable best_quality when the loop stopped,
whether normally or by a raised PermissionError. -/
def LoopResult.bestQ : LoopResult → Option Int
  | .ok b _ _ => b
  | .permErr b _ => b

/-- Lowercase of a character string, modelling the Python str.lower method on
the ASCII extension strings involved here. -/
def lowerStr (s : List Char) : List Char := s.map Char.toLower

/-- Model of pathlib PurePath.suffix on a file name: the part of the name from
its last dot onward, provided that dot is neither the first nor the last
character; otherwise the empty string. -/
def pySuffix (name : List Char) : List Char :=
  match List.findIdx? (fun c => c = '.') name.reverse with
  | none => []
  | some j =>
      if 0 < j ∧ j + 1 < name.length then (name.reverse.take (j + 1)).reverse else []

/-- Model of pathlib PurePath.with_suffix restricted to the final name
component: drop the current suffix and append the new one. -/
def withSuffix (name newSuffix : List Char) : List Char :=
  name.take (name.length - (pySuffix name).length) ++ newSuffix

/-- One entry yielded by Path.rglob under the input root: its path components
relative to the input root, and whether it is a regular file (rglob also
yields directories, which the source code does not filter out). -/
structure FSEntry where
  parts : List (List Char)
  isFile : Bool
deriving DecidableEq, Repr

/-- The final path component of an entry, the value pathlib exposes as name. -/
def FSEntry.name (e : FSEntry) : List Char := e.parts.getLastD []

/-- One element of the walk produced by process_directory: the relative source
path, the computed output path relative to the output root, and the caught
outcome of the compress_image call on that file. -/
structure WalkOutcome where
  relative_path : List (List Char)
  output_file : List (List Char)
  res : CompressResult
deriving DecidableEq, Repr

namespace Compress

/-- The inner for-loop of the PermissionError handler in compress_image
(src/compress.py lines 40 to 47): given the number of remaining failing save
attempts and the number of retries left, returns the number of 0.5 second
sleeps performed before a retry succeeded, or none when every retry failed and
the PermissionError is re-raised. -/
def save_retry_loop : Nat → Nat → Option Nat
  | _, 0 => none
  | 0, _ + 1 => some 0
  | remaining + 1, k + 1 => Option.map (· + 1) (save_retry_loop remaining k)

/-- One img.save call on output_path together with its PermissionError
handler: failCount is the number of leading attempts that raise.  A zero
failCount succeeds at once with no sleep; otherwise up to 3 retries run, each
failed retry sleeping 0.5 seconds; none means the save was abandoned and the
PermissionError propagates. -/
def save_with_retry (failCount : Nat) : Option Nat :=
  if failCount = 0 then some 0 else save_retry_loop (failCount - 1) 3

/-- The while loop of compress_image (src/compress.py lines 33 to 55).  enc
gives the byte size of the opened image encoded at a given quality in the
requested format, target is the byte budget, and fails gives the failCount of
the n-th save operation of the call.  State: current bounds min_q and max_q,
the best_quality found so far, the successful writes so far, and the index of
the next save operation. -/
def searchLoop (enc : Int → Int) (target : Int) (fails : Nat → Nat) :
    Int → Int → Option Int → List Int → Nat → LoopResult :=
  fun min_q max_q best_quality writes n =>
    if min_q ≤ max_q then
      let current_quality := (min_q + max_q) / 2
      if save_with_retry (fails n) = none then
        .permErr best_quality writes
      else
        let writes := writes ++ [current_quality]
        let current_size := enc current_quality
        if current_size ≤ target then
          searchLoop enc target fails (current_quality + 1) max_q
            (some current_quality) writes (n + 1)
        else
          searchLoop enc target fails min_q (current_quality - 1)
            best_quality writes (n + 1)
    else .ok best_quality writes n
termination_by min_q max_q _ _ _ => (max_q + 1 - min_q).toNat
decreasing_by
  all_goals omega

/-- compress_image of src/compress.py (lines 10 to 79).  The image argument is
summarised by input (existence, size, decodability) and by enc, the byte size
the codec produces for this image at each quality; the RGB conversion at line
28 happens before the loop and is absorbed into enc.  fails drives the
PermissionError behaviour of the successive save operations.  The outer
try-except wraps every escaping exception into a generic Exception. -/
def compress_image (input : InputFile) (target_size_kb : Int) (min_quality : Int)
    (enc : Int → Int) (fails : Nat → Nat) : CompressRun :=
  let target_size := target_size_kb * 1024
  if input.found = false then
    { result := .error (.exception .fileNotFound), best_quality := none,
      writes := [], printed := false }
  else if input.size ≤ target_size then
    { result := .error (.exception .valueAlreadyUnder), best_quality := none,
      writes := [], printed := false }
  else if input.decodable = false then
    { result := .error (.exception .decodeFailed), best_quality := none,
      writes := [], printed := false }
  else
    match searchLoop enc target_size fails min_quality 95 none [] 0 with
    | .permErr b ws =>
        { result := .error (.exception .permDenied), best_quality := b,
          writes := ws, printed := false }
    | .ok none ws _ =>
        { result := .ok, best_quality := none, writes := ws, printed := false }
    | .ok (some best) ws n =>
        match save_with_retry (fails n) with
        | none =>
            { result := .error (.exception .permDenied), best_quality := some best,
              writes := ws, printed := false }
        | some _ =>
            { result := .ok, best_quality := some best,
              writes := ws ++ [best], printed := true }

/-- The image_extensions set literal of process_directory. -/
def image_extensions : List (List Char) :=
  [(".jpg").toList, (".jpeg").toList, (".png").toList, (".webp").toList]

/-- The output path computed by process_directory for one discovered entry:
the relative path with its final component re-suffixed by a dot followed by
the lowercased output format. -/
def output_rel (output_format : List Char) (parts : List (List Char)) :
    List (List Char) :=
  parts.dropLast ++ [withSuffix (parts.getLastD []) ('.' :: lowerStr output_format)]

/-- process_directory of src/compress.py (lines 81 to 110) restricted to its
observable walk: the rglob enumeration is the given entry list, and runFile
gives the outcome that the compress_image call produces on each entry given
its on-disk content; the try-except at lines 107 to 110 catches an error
outcome, prints it and continues with the next entry. -/
def process_directory (output_format : List Char)
    (runFile : FSEntry → CompressResult) : List FSEntry → List WalkOutcome
  | [] => []
  | img_path :: rest =>
      if lowerStr (pySuffix img_path.name) ∈ image_extensions then
        { relative_path := img_path.parts,
          output_file := output_rel output_format img_path.parts,
          res := runFile img_path } :: process_directory output_format runFile rest
      else process_directory output_format runFile rest

end Compress

namespace CompressUi

/-- The retry for-loop of compress_image as duplicated in src/compress_ui.py
(lines 251 to 258), translated independently of the copy in Compress. -/
def save_retry_loop : Nat → Nat → Option Nat
  | _, 0 => none
  | 0, _ + 1 => some 0
  | remaining + 1, k + 1 => Option.map (· + 1) (save_retry_loop remaining k)

/-- One img.save call with its PermissionError handler, as duplicated in
src/compress_ui.py. -/
def save_with_retry (failCount : Nat) : Option Nat :=
  if failCount = 0 then some 0 else save_retry_loop (failCount - 1) 3

/-- The while loop of compress_image as duplicated in src/compress_ui.py
(lines 244 to 266). -/
def searchLoop (enc : Int → Int) (target : Int) (fails : Nat → Nat) :
    Int → Int → Option Int → List Int → Nat → LoopResult :=
  fun min_q max_q best_quality writes n =>
    if min_q ≤ max_q then
      let current_quality := (min_q + max_q) / 2
      if save_with_retry (fails n) = none then
        .permErr best_quality writes
      else
        let writes := writes ++ [current_quality]
        let current_size := enc current_quality
        if current_size ≤ target then
          searchLoop enc target fails (current_quality + 1) max_q
            (some current_quality) writes (n + 1)
        else
          searchLoop enc target fails min_q (current_quality - 1)
            best_quality writes (n + 1)
    else .ok best_quality writes n
termination_by min_q max_q _ _ _ => (max_q + 1 - min_q).toNat
decreasing_by
  all_goals omega

/-- compress_image as duplicated in src/compress_ui.py (lines 221 to 290). -/
def compress_image (input : InputFile) (target_size_kb : Int) (min_quality : Int)
    (enc : Int → Int) (fails : Nat → Nat) : CompressRun :=
  let target_size := target_size_kb * 1024
  if input.found = false then
    { result := .error (.exception .fileNotFound), best_quality := none,
      writes := [], printed := false }
  else if input.size ≤ target_size then
    { result := .error (.exception .valueAlreadyUnder), best_quality := none,
      writes := [], printed := false }
  else if input.decodable = false then
    { result := .error (.exception .decodeFailed), best_quality := none,
      writes := [], printed := false }
  else
    match searchLoop enc target_size fails min_quality 95 none [] 0 with
    | .permErr b ws =>
        { result := .error (.exception .permDenied), best_quality := b,
          writes := ws, printed := false }
    | .ok none ws _ =>
        { result := .ok, best_quality := none, writes := ws, printed := false }
    | .ok (some best) ws n =>
        match save_with_retry (fails n) with
        | none =>
            { result := .error (.exception .permDenied), best_quality := some best,
              writes := ws, printed := false }
        | some _ =>
            { result := .ok, best_quality := some best,
              writes := ws ++ [best], printed := true }

/-- The image_extensions set literal of process_directory in
src/compress_ui.py. -/
def image_extensions : List (List Char) :=
  [(".jpg").toList, (".jpeg").toList, (".png").toList, (".webp").toList]

/-- The output path computed by process_directory in src/compress_ui.py. -/
def output_rel (output_format : List Char) (parts : List (List Char)) :
    List (List Char) :=
  parts.dropLast ++ [withSuffix (parts.getLastD []) ('.' :: lowerStr output_format)]

/-- process_directory as duplicated in src/compress_ui.py (lines 292 to 321). -/
def process_directory (output_format : List Char)
    (runFile : FSEntry → CompressResult) : List FSEntry → List WalkOutcome
  | [] => []
  | img_path :: rest =>
      if lowerStr (pySuffix img_path.name) ∈ image_extensions then
        { relative_path := img_path.parts,
          output_file := output_rel output_format img_path.parts,
          res := runFile img_path } :: process_directory output_format runFile rest
      else process_directory output_format runFile rest

end CompressUi

namespace Compress

/-- Fuel-indexed variant of searchLoop used to state termination: it performs
at most fuel iterations of the while loop and returns none when the fuel runs
out before the loop exits.  Being structurally recursive it evaluates inside
the kernel. -/
def searchLoopFuel (enc : Int → Int) (target : Int) (fails : Nat → Nat) :
    Nat → Int → Int → Option Int → List Int → Nat → Option LoopResult
  | 0, _, _, _, _, _ => none
  | fuel + 1, min_q, max_q, best_quality, writes, n =>
    if min_q ≤ max_q then
      let current_quality := (min_q + max_q) / 2
      if save_with_retry (fails n) = none then
        some (.permErr best_quality writes)
      else
        if enc current_quality ≤ target then
          searchLoopFuel enc target fails fuel (current_quality + 1) max_q
            (some current_quality) (writes ++ [current_quality]) (n + 1)
        else
          searchLoopFuel enc target fails fuel min_q (current_quality - 1)
            best_quality (writes ++ [current_quality]) (n + 1)
    else some (.ok best_quality writes n)

end Compress

/-- A directory, not a regular file, whose name carries an image extension;
rglob yields such entries and the source code never checks is_file. -/
def dir_a_jpg : FSEntry := { parts := [("a.jpg").toList], isFile := false }

/-- A regular image file on which the per-file compression fails. -/
def crash_jpg : FSEntry := { parts := [("crash.jpg").toList], isFile := true }

/-- A regular image file placed after the failing one in the walk order. -/
def ok_png : FSEntry := { parts := [("ok.png").toList], isFile := true }

/-! Helper lemmas about the retry model. -/

theorem save_retry_loop_eq :
    ∀ r k, Compress.save_retry_loop r k = CompressUi.save_retry_loop r k := by
  intro r k
  induction k generalizing r with
  | zero => cases r <;> rfl
  | succ k ih =>
      cases r with
      | zero => rfl
      | succ r => simp [Compress.save_retry_loop, CompressUi.save_retry_loop, ih]

theorem save_with_retry_eq :
    ∀ f, Compress.save_with_retry f = CompressUi.save_with_retry f := by
  intro f
  simp [Compress.save_with_retry, CompressUi.save_with_retry, save_retry_loop_eq]

theorem save_retry_loop_none_iff :
    ∀ r k, Compress.save_retry_loop r k = none ↔ k ≤ r := by
  intro r k
  induction k generalizing r with
  | zero => cases r <;> simp [Compress.save_retry_loop]
  | succ k ih =>
      cases r with
      | zero => simp [Compress.save_retry_loop]
      | succ r => simp [Compress.save_retry_loop, ih]

theorem save_with_retry_none_iff :
    ∀ f, Compress.save_with_retry f = none ↔ 4 ≤ f := by
  intro f
  cases f with
  | zero => simp [Compress.save_with_retry]
  | succ f => simp [Compress.save_with_retry, save_retry_loop_none_iff]

theorem save_retry_loop_sleeps :
    ∀ r k s, Compress.save_retry_loop r k = some s → s + 1 ≤ k := by
  intro r k
  induction k generalizing r with
  | zero => cases r <;> simp [Compress.save_retry_loop]
  | succ k ih =>
      cases r with
      | zero => simp [Compress.save_retry_loop]
      | succ r =>
          intro s hs
          simp only [Compress.save_retry_loop, Option.map_eq_some'] at hs
          obtain ⟨a, ha, rfl⟩ := hs
          have := ih r a ha
          omega

theorem save_with_retry_sleeps :
    ∀ f s, Compress.save_with_retry f = some s → s ≤ 3 := by
  intro f s hf
  cases f with
  | zero =>
      simp [Compress.save_with_retry] at hf
      omega
  | succ f =>
      simp only [Compress.save_with_retry, Nat.succ_ne_zero, if_neg] at hf
      have := save_retry_loop_sleeps _ _ _ hf
      omega

theorem save_with_retry_isSome_of_le (f : Nat) (h : f ≤ 3) :
    ∃ s, Compress.save_with_retry f = some s := by
  cases hs : Compress.save_with_retry f with
  | some s => exact ⟨s, rfl⟩
  | none =>
      have := (save_with_retry_none_iff f).mp hs
      omega

/-! Helper lemmas about the binary-search loop. -/

theorem searchLoop_eq (enc : Int → Int) (target : Int) (fails : Nat → Nat) :
    ∀ lo hi best ws n, Compress.searchLoop enc target fails lo hi best ws n =
      CompressUi.searchLoop enc target fails lo hi best ws n := by
  intro lo hi best ws n
  induction lo, hi, best, ws, n using Compress.searchLoop.induct enc target fails with
  | case1 lo hi best ws n hle hsave =>
      rw [Compress.searchLoop, CompressUi.searchLoop, ← save_with_retry_eq]
      simp [hle, hsave]
  | case2 lo hi best ws n hle cq hsave wr cs hsize ih =>
      rw [Compress.searchLoop, CompressUi.searchLoop, ← save_with_retry_eq]
      simp [hle, hsave, hsize, ih]
  | case3 lo hi best ws n hle cq hsave wr cs hsize ih =>
      rw [Compress.searchLoop, CompressUi.searchLoop, ← save_with_retry_eq]
      simp [hle, hsave, hsize, ih]
  | case4 lo hi best ws n hle =>
      rw [Compress.searchLoop, CompressUi.searchLoop]
      simp [hle]

theorem compress_image_eq : Compress.compress_image = CompressUi.compress_image := by
  funext input kb mq enc fails
  simp only [Compress.compress_image, CompressUi.compress_image, searchLoop_eq,
    save_with_retry_eq]

theorem process_directory_eq :
    Compress.process_directory = CompressUi.process_directory := by
  funext fmt runFile tree
  induction tree with
  | nil => rfl
  | cons e rest ih =>
      simp only [Compress.process_directory, CompressUi.process_directory, ih]
      rfl

theorem searchLoop_bestQ_bounds (enc : Int → Int) (target : Int) (fails : Nat → Nat)
    (mq : Int) :
    ∀ lo hi best ws n, mq ≤ lo → hi ≤ 95 →
      (∀ b, best = some b → mq ≤ b ∧ b ≤ 95) →
      ∀ b, (Compress.searchLoop enc target fails lo hi best ws n).bestQ = some b →
        mq ≤ b ∧ b ≤ 95 := by
  intro lo hi best ws n
  induction lo, hi, best, ws, n using Compress.searchLoop.induct enc target fails with
  | case1 lo hi best ws n hle hsave =>
      intro h1 h2 h3 b hb
      rw [Compress.searchLoop] at hb
      simp [hle, hsave, LoopResult.bestQ] at hb
      exact h3 b hb
  | case2 lo hi best ws n hle cq hsave wr cs hsize ih =>
      intro h1 h2 h3 b hb
      have hcq : cq = (lo + hi) / 2 := rfl
      rw [Compress.searchLoop] at hb
      simp only [if_pos hle, if_neg hsave, if_pos hsize] at hb
      exact ih (by omega) h2 (fun b hb2 => by
        refine ⟨?_, ?_⟩ <;> (injection hb2 with h; omega)) b hb
  | case3 lo hi best ws n hle cq hsave wr cs hsize ih =>
      intro h1 h2 h3 b hb
      have hcq : cq = (lo + hi) / 2 := rfl
      rw [Compress.searchLoop] at hb
      simp only [if_pos hle, if_neg hsave, if_neg hsize] at hb
      exact ih h1 (by omega) h3 b hb
  | case4 lo hi best ws n hle =>
      intro h1 h2 h3 b hb
      rw [Compress.searchLoop] at hb
      simp [hle, LoopResult.bestQ] at hb
      exact h3 b hb

theorem searchLoop_no_permErr (enc : Int → Int) (target : Int) (fails : Nat → Nat)
    (hf : ∀ n, fails n ≤ 3) :
    ∀ lo hi best ws n, ∃ r ws2 n2,
      Compress.searchLoop enc target fails lo hi best ws n = .ok r ws2 n2 := by
  intro lo hi best ws n
  induction lo, hi, best, ws, n using Compress.searchLoop.induct enc target fails with
  | case1 lo hi best ws n hle hsave =>
      exfalso
      have := (save_with_retry_none_iff (fails n)).mp hsave
      have := hf n
      omega
  | case2 lo hi best ws n hle cq hsave wr cs hsize ih =>
      rw [Compress.searchLoop]
      simpa [hle, hsave, hsize] using ih
  | case3 lo hi best ws n hle cq hsave wr cs hsize ih =>
      rw [Compress.searchLoop]
      simpa [hle, hsave, hsize] using ih
  | case4 lo hi best ws n hle =>
      rw [Compress.searchLoop]
      simp [hle]

theorem searchLoop_fails_congr (enc : Int → Int) (target : Int) (fails fails2 : Nat → Nat)
    (hf : ∀ n, fails n ≤ 3) (hf2 : ∀ n, fails2 n ≤ 3) :
    ∀ lo hi best ws n, Compress.searchLoop enc target fails lo hi best ws n =
      Compress.searchLoop enc target fails2 lo hi best ws n := by
  intro lo hi best ws n
  induction lo, hi, best, ws, n using Compress.searchLoop.induct enc target fails with
  | case1 lo hi best ws n hle hsave =>
      exfalso
      have := (save_with_retry_none_iff (fails n)).mp hsave
      have := hf n
      omega
  | case2 lo hi best ws n hle cq hsave wr cs hsize ih =>
      have hs2 : ¬ Compress.save_with_retry (fails2 n) = none := by
        intro h
        have := (save_with_retry_none_iff (fails2 n)).mp h
        have := hf2 n
        omega
      rw [Compress.searchLoop, Compress.searchLoop]
      simp [hle, hsave, hs2, hsize, ih]
  | case3 lo hi best ws n hle cq hsave wr cs hsize ih =>
      have hs2 : ¬ Compress.save_with_retry (fails2 n) = none := by
        intro h
        have := (save_with_retry_none_iff (fails2 n)).mp h
        have := hf2 n
        omega
      rw [Compress.searchLoop, Compress.searchLoop]
      simp [hle, hsave, hs2, hsize, ih]
  | case4 lo hi best ws n hle =>
      rw [Compress.searchLoop, Compress.searchLoop]
      simp [hle]

theorem searchLoop_max (enc : Int → Int) (target : Int) (fails : Nat → Nat) (mq : Int)
    (hf : ∀ n, fails n ≤ 3) (mono : ∀ q r, q ≤ r → enc q ≤ enc r) :
    ∀ lo hi best ws n,
      mq ≤ lo → hi ≤ 95 →
      (∀ q, hi < q → q ≤ 95 → target < enc q) →
      (best = none → lo = mq) →
      (∀ b, best = some b → mq ≤ b ∧ b ≤ 95 ∧ enc b ≤ target ∧ b + 1 = lo) →
      ∃ r ws2 n2, Compress.searchLoop enc target fails lo hi best ws n = .ok r ws2 n2 ∧
        (∀ b, r = some b → mq ≤ b ∧ b ≤ 95 ∧ enc b ≤ target) ∧
        (∀ q, mq ≤ q → q ≤ 95 → enc q ≤ target → ∃ b, r = some b ∧ q ≤ b) := by
  intro lo hi best ws n
  induction lo, hi, best, ws, n using Compress.searchLoop.induct enc target fails with
  | case1 lo hi best ws n hle hsave =>
      exfalso
      have := (save_with_retry_none_iff (fails n)).mp hsave
      have := hf n
      omega
  | case2 lo hi best ws n hle cq hsave wr cs hsize ih =>
      intro h1 h2 h3 _ _
      have hcq : cq = (lo + hi) / 2 := rfl
      rw [Compress.searchLoop]
      simp only [if_pos hle, if_neg hsave, if_pos hsize]
      exact ih (by omega) h2 h3 (fun h => (Option.some_ne_none _ h).elim)
        (fun b hb => by
          injection hb with hb
          subst hb
          exact ⟨by omega, by omega, hsize, rfl⟩)
  | case3 lo hi best ws n hle cq hsave wr cs hsize ih =>
      intro h1 h2 h3 h4 h5
      have hcq : cq = (lo + hi) / 2 := rfl
      have hcs : target < enc cq := lt_of_not_le hsize
      rw [Compress.searchLoop]
      simp only [if_pos hle, if_neg hsave, if_neg hsize]
      refine ih h1 (by omega) (fun q hq1 hq2 => ?_) h4 h5
      rcases le_or_lt q hi with hqh | hqh
      · have := mono cq q (by omega)
        omega
      · exact h3 q hqh hq2
  | case4 lo hi best ws n hle =>
      intro h1 h2 h3 h4 h5
      rw [Compress.searchLoop]
      simp only [if_neg hle]
      refine ⟨best, ws, n, rfl, fun b hb => ?_, fun q hq1 hq2 hq3 => ?_⟩
      · obtain ⟨a1, a2, a3, _⟩ := h5 b hb
        exact ⟨a1, a2, a3⟩
      · have hqhi : q ≤ hi := by
          by_contra hq
          push_neg at hq
          exact absurd hq3 (not_le.mpr (h3 q hq hq2))
        cases best with
        | none =>
            have := h4 rfl
            omega
        | some b =>
            obtain ⟨_, _, _, hb1⟩ := h5 b rfl
            exact ⟨b, rfl, by omega⟩

theorem searchLoop_floor (enc : Int → Int) (target : Int) (fails : Nat → Nat)
    (hf : ∀ n, fails n ≤ 3) :
    ∀ lo hi best ws n, lo ≤ hi →
      (∀ q, lo ≤ q → q ≤ hi → target < enc q) →
      ∃ ws2 n2, Compress.searchLoop enc target fails lo hi best ws n =
        .ok best ws2 n2 ∧ ws2.getLast? = some lo := by
  intro lo hi best ws n
  induction lo, hi, best, ws, n using Compress.searchLoop.induct enc target fails with
  | case1 lo hi best ws n hle hsave =>
      exfalso
      have := (save_with_retry_none_iff (fails n)).mp hsave
      have := hf n
      omega
  | case2 lo hi best ws n hle cq hsave wr cs hsize ih =>
      intro _ hinf
      exfalso
      have hcq : cq = (lo + hi) / 2 := rfl
      have := hinf cq (by omega) (by omega)
      exact absurd hsize (not_le.mpr this)
  | case3 lo hi best ws n hle cq hsave wr cs hsize ih =>
      intro _ hinf
      have hcq : cq = (lo + hi) / 2 := rfl
      rw [Compress.searchLoop]
      simp only [if_pos hle, if_neg hsave, if_neg hsize]
      by_cases hrec : lo ≤ cq - 1
      · exact ih hrec (fun q hq1 hq2 => hinf q hq1 (by omega))
      · have hcqlo : cq = lo := by omega
        rw [Compress.searchLoop]
        simp only [if_neg hrec]
        refine ⟨ws ++ [cq], n + 1, rfl, ?_⟩
        rw [hcqlo]
        exact List.getLast?_concat ws
  | case4 lo hi best ws n hle =>
      intro h _
      exact absurd h hle

theorem searchLoop_fuel_sufficient (enc : Int → Int) (target : Int) (fails : Nat → Nat) :
    ∀ fuel lo hi best ws n, (hi + 1 - lo).toNat < fuel →
      Compress.searchLoopFuel enc target fails fuel lo hi best ws n =
        some (Compress.searchLoop enc target fails lo hi best ws n) := by
  intro fuel
  induction fuel with
  | zero =>
      intro lo hi best ws n h
      omega
  | succ fuel ih =>
      intro lo hi best ws n h
      rw [Compress.searchLoop]
      by_cases hle : lo ≤ hi
      · simp only [Compress.searchLoopFuel, if_pos hle]
        by_cases hsave : Compress.save_with_retry (fails n) = none
        · simp [hsave]
        · simp only [if_neg hsave]
          by_cases hsize : enc ((lo + hi) / 2) ≤ target
          · simp only [if_pos hsize]
            exact ih _ _ _ _ _ (by omega)
          · simp only [if_neg hsize]
            exact ih _ _ _ _ _ (by omega)
      · simp [Compress.searchLoopFuel, hle]

theorem compress_image_fails_congr (input : InputFile) (target_size_kb min_quality : Int)
    (enc : Int → Int) (fails fails2 : Nat → Nat)
    (hf : ∀ n, fails n ≤ 3) (hf2 : ∀ n, fails2 n ≤ 3) :
    Compress.compress_image input target_size_kb min_quality enc fails =
      Compress.compress_image input target_size_kb min_quality enc fails2 := by
  by_cases h1 : input.found = false
  · simp [Compress.compress_image, h1]
  · by_cases h2 : input.size ≤ target_size_kb * 1024
    · simp [Compress.compress_image, h1, h2]
    · by_cases h3 : input.decodable = false
      · simp [Compress.compress_image, h1, h2, h3]
      · simp only [Compress.compress_image, if_neg h1, if_neg h2, if_neg h3]
        rw [searchLoop_fails_congr enc (target_size_kb * 1024) fails fails2 hf hf2
          min_quality 95 none [] 0]
        rcases hres : Compress.searchLoop enc (target_size_kb * 1024) fails2
            min_quality 95 none [] 0 with ⟨r, ws2, n2⟩ | ⟨r, ws2⟩
        · cases r with
          | none => rfl
          | some bq =>
              obtain ⟨s1, hs1⟩ := save_with_retry_isSome_of_le (fails n2) (hf n2)
              obtain ⟨s2, hs2⟩ := save_with_retry_isSome_of_le (fails2 n2) (hf2 n2)
              simp [hs1, hs2]
        · rfl

/-! Claim theorems. -/

/-- C1: for every image and target such that some quality in the interval from
min_quality to 95 encodes to a byte size at most target_size_kb * 1024, and
assuming the encoded size is non-increasing as quality decreases, the binary
search inside compress_image selects the maximal such quality as best_quality;
feasibility is the non-strict comparison of the encoded size against
target_size_kb * 1024.  The search runs only when the input exists, decodes,
and is larger than the target, and when no save is abandoned. -/
theorem C1_compress_image_selects_max_feasible_quality
    (input : InputFile) (target_size_kb min_quality : Int)
    (enc : Int → Int) (fails : Nat → Nat)
    (hfound : input.found = true) (hdec : input.decodable = true)
    (hbig : target_size_kb * 1024 < input.size)
    (hf : ∀ n, fails n ≤ 3)
    (mono : ∀ q r, q ≤ r → enc q ≤ enc r)
    (hfeas : ∃ q, min_quality ≤ q ∧ q ≤ 95 ∧ enc q ≤ target_size_kb * 1024) :
    ∃ b, (Compress.compress_image input target_size_kb min_quality enc fails).best_quality
        = some b ∧
      min_quality ≤ b ∧ b ≤ 95 ∧ enc b ≤ target_size_kb * 1024 ∧
      ∀ q, min_quality ≤ q → q ≤ 95 → enc q ≤ target_size_kb * 1024 → q ≤ b := by
  obtain ⟨r, ws2, n2, heq, hsome, hmax⟩ :=
    searchLoop_max enc (target_size_kb * 1024) fails min_quality hf mono
      min_quality 95 none [] 0 le_rfl le_rfl
      (fun q h1 h2 => absurd (h1.trans_le h2) (lt_irrefl 95))
      (fun _ => rfl) (fun b hb => by cases hb)
  obtain ⟨q0, hq1, hq2, hq3⟩ := hfeas
  obtain ⟨b, hb, hq0b⟩ := hmax q0 hq1 hq2 hq3
  subst hb
  obtain ⟨hb1, hb2, hb3⟩ := hsome b rfl
  have hsave : Compress.save_with_retry (fails n2) ≠ none := by
    intro hcon
    have := (save_with_retry_none_iff (fails n2)).mp hcon
    have := hf n2
    omega
  obtain ⟨s, hs⟩ := Option.ne_none_iff_exists'.mp hsave
  refine ⟨b, ?_, hb1, hb2, hb3, fun q h1 h2 h3 => ?_⟩
  · simp only [Compress.compress_image, hfound, hdec, Bool.true_eq_false, if_false,
      if_neg (not_le.mpr hbig), heq, hs]
  · obtain ⟨b2, hb2eq, hle2⟩ := hmax q h1 h2 h3
    injection hb2eq with hb2eq
    omega

/-- C1 witness: a concrete monotone encoder with feasible qualities, on which
the theorem produces the maximal feasible quality. -/
theorem C1_witness :
    ∃ b, (Compress.compress_image { found := true, size := 500 * 1024, decodable := true }
        100 5 (fun q => 1024 * q) (fun _ => 0)).best_quality = some b ∧
      (5:Int) ≤ b ∧ b ≤ 95 ∧ 1024 * b ≤ 100 * 1024 ∧
      ∀ q, (5:Int) ≤ q → q ≤ 95 → 1024 * q ≤ 100 * 1024 → q ≤ b :=
  C1_compress_image_selects_max_feasible_quality
    { found := true, size := 500 * 1024, decodable := true } 100 5 (fun q => 1024 * q)
    (fun _ => 0) rfl rfl (by decide) (fun n => Nat.zero_le 3)
    (fun q r h => mul_le_mul_of_nonneg_left h (by norm_num : (0:Int) ≤ 1024))
    ⟨95, by decide, by decide, by decide⟩

/-- C2 counterexample: with an encoder that is infeasible at every quality,
compress_image returns normally, raises nothing, prints no report, and leaves
on disk the encoding at the floor quality 5, whose size 999999 exceeds the
target 102400 bytes.  This refutes the part of the claim stating that the
caller is made to report a failure rather than silently emitting an oversized
file. -/
theorem C2_counterexample_silent_no_report :
    Compress.compress_image { found := true, size := 500 * 1024, decodable := true }
        100 5 (fun _ => 999999) (fun _ => 0) =
      { result := .ok, best_quality := none, writes := [50, 27, 15, 9, 6, 5],
        printed := false } ∧
    (100 * 1024 : Int) < 999999 := by
  constructor
  · simp +decide [Compress.compress_image, Compress.searchLoop, Compress.save_with_retry,
      Compress.save_retry_loop]
  · decide

/-- C2 as amended: when no tested midpoint quality is feasible, the search
yields no quality, compress_image returns silently with no error and no
report, and an output file is still left on disk at the lowest quality floor
tested, namely min_quality; when a feasible quality is found, on success the
file at output_path is the encoding of the image at that best-feasible
quality in the requested output format. -/
theorem C2_no_feasible_floor_write_and_success_write
    (input : InputFile) (target_size_kb min_quality : Int)
    (enc : Int → Int) (fails : Nat → Nat)
    (hfound : input.found = true) (hdec : input.decodable = true)
    (hbig : target_size_kb * 1024 < input.size) (hf : ∀ n, fails n ≤ 3) :
    ((min_quality ≤ 95 ∧
        ∀ q, min_quality ≤ q → q ≤ 95 → target_size_kb * 1024 < enc q) →
      (Compress.compress_image input target_size_kb min_quality enc fails).result = .ok ∧
      (Compress.compress_image input target_size_kb min_quality enc fails).best_quality
        = none ∧
      (Compress.compress_image input target_size_kb min_quality enc fails).printed
        = false ∧
      (Compress.compress_image input target_size_kb min_quality enc fails).writes.getLast?
        = some min_quality) ∧
    (∀ b, (Compress.compress_image input target_size_kb min_quality enc fails).best_quality
        = some b →
      (Compress.compress_image input target_size_kb min_quality enc fails).result = .ok ∧
      (Compress.compress_image input target_size_kb min_quality enc fails).writes.getLast?
        = some b) := by
  constructor
  · rintro ⟨hq95, hinf⟩
    obtain ⟨ws2, n2, heq, hlast⟩ := searchLoop_floor enc (target_size_kb * 1024) fails hf
      min_quality 95 none [] 0 hq95 (fun q h1 h2 => hinf q h1 h2)
    simp only [Compress.compress_image, hfound, hdec, Bool.true_eq_false, if_false,
      if_neg (not_le.mpr hbig), heq]
    exact ⟨trivial, trivial, trivial, hlast⟩
  · intro b hb
    by_cases h2 : input.size ≤ target_size_kb * 1024
    · exact absurd h2 (not_le.mpr hbig)
    · simp only [Compress.compress_image, hfound, hdec, Bool.true_eq_false, if_false,
        if_neg h2] at hb ⊢
      obtain ⟨r, ws2, n2, heq⟩ := searchLoop_no_permErr enc (target_size_kb * 1024) fails hf
        min_quality 95 none [] 0
      rw [heq] at hb ⊢
      cases r with
      | none => simp at hb
      | some bq =>
          obtain ⟨s, hs⟩ := save_with_retry_isSome_of_le (fails n2) (hf n2)
          simp only [hs] at hb ⊢
          have hb2 : bq = b := by simpa using hb
          subst hb2
          exact ⟨by simp, by simp [List.getLast?_concat]⟩

/-- C2 witness: the amended theorem applied to a concrete always-infeasible
encoder, showing the silent return with the floor-quality file left behind. -/
theorem C2_witness :
    (Compress.compress_image { found := true, size := 500 * 1024, decodable := true }
        100 5 (fun _ => 999999) (fun _ => 0)).result = .ok ∧
    (Compress.compress_image { found := true, size := 500 * 1024, decodable := true }
        100 5 (fun _ => 999999) (fun _ => 0)).best_quality = none ∧
    (Compress.compress_image { found := true, size := 500 * 1024, decodable := true }
        100 5 (fun _ => 999999) (fun _ => 0)).printed = false ∧
    (Compress.compress_image { found := true, size := 500 * 1024, decodable := true }
        100 5 (fun _ => 999999) (fun _ => 0)).writes.getLast? = some 5 :=
  (C2_no_feasible_floor_write_and_success_write
    { found := true, size := 500 * 1024, decodable := true } 100 5 (fun _ => 999999)
    (fun _ => 0) rfl rfl (by decide) (fun n => Nat.zero_le 3)).1
    ⟨by decide, fun q h1 h2 => by decide⟩

/-- C3 counterexample: two distinct failure classes, a missing input and an
input already at or under the target, both escape compress_image as an error
object whose Python runtime type is the same generic Exception, so the failure
classes are not distinguishable by a typed error, and the failure is raised
rather than returned as a typed result. -/
theorem C3_counterexample_same_exception_type :
    (Compress.compress_image { found := false, size := 500 * 1024, decodable := true }
        100 5 (fun _ => 0) (fun _ => 0)).result = .error (.exception .fileNotFound) ∧
    (Compress.compress_image { found := true, size := 50 * 1024, decodable := true }
        100 5 (fun _ => 0) (fun _ => 0)).result = .error (.exception .valueAlreadyUnder) ∧
    pyTypeName (.exception .fileNotFound) = pyTypeName (.exception .valueAlreadyUnder) :=
  ⟨rfl, rfl, rfl⟩

/-- C3 as amended: compress_image raises, for each failure class, a single
generic Exception wrapping a message that identifies the class: the message of
FileNotFoundError when the source path does not exist, of ValueError when the
original size is at most the target, of the decode failure when the source is
not a readable image, and of PermissionError when the destination cannot be
written after the bounded retries; every error that escapes is this generic
wrapper, so the classes are distinguishable only by message, not by type, and
no typed per-class result is returned. -/
theorem C3_failure_classes_generic_exception
    (input : InputFile) (target_size_kb min_quality : Int)
    (enc : Int → Int) (fails : Nat → Nat) :
    (∀ e, (Compress.compress_image input target_size_kb min_quality enc fails).result
        = .error e → ∃ inner, e = .exception inner) ∧
    (input.found = false →
      (Compress.compress_image input target_size_kb min_quality enc fails).result
        = .error (.exception .fileNotFound)) ∧
    (input.found = true → input.size ≤ target_size_kb * 1024 →
      (Compress.compress_image input target_size_kb min_quality enc fails).result
        = .error (.exception .valueAlreadyUnder)) ∧
    (input.found = true → target_size_kb * 1024 < input.size → input.decodable = false →
      (Compress.compress_image input target_size_kb min_quality enc fails).result
        = .error (.exception .decodeFailed)) ∧
    (input.found = true → target_size_kb * 1024 < input.size → input.decodable = true →
      min_quality ≤ 95 → 4 ≤ fails 0 →
      (Compress.compress_image input target_size_kb min_quality enc fails).result
        = .error (.exception .permDenied)) := by
  refine ⟨fun e _ => ?_, fun h1 => ?_, fun h1 h2 => ?_, fun h1 h2 h3 => ?_,
    fun h1 h2 h3 h4 h5 => ?_⟩
  · cases e with
    | exception inner => exact ⟨inner, rfl⟩
  · simp [Compress.compress_image, h1]
  · simp [Compress.compress_image, h1, h2]
  · simp [Compress.compress_image, h1, h2, h3, not_le.mpr h2]
  · have hloop : Compress.searchLoop enc (target_size_kb * 1024) fails
        min_quality 95 none [] 0 = .permErr none [] := by
      rw [Compress.searchLoop]
      have hsave : Compress.save_with_retry (fails 0) = none :=
        (save_with_retry_none_iff (fails 0)).mpr h5
      simp [h4, hsave]
    simp only [Compress.compress_image, h1, h3, Bool.true_eq_false, if_false,
      if_neg (not_le.mpr h2), hloop]

/-- C3 witness: the amended theorem applied to a concrete missing input. -/
theorem C3_witness :
    (Compress.compress_image { found := false, size := 500 * 1024, decodable := true }
        200 5 (fun _ => 0) (fun _ => 0)).result = .error (.exception .fileNotFound) :=
  (C3_failure_classes_generic_exception
    { found := false, size := 500 * 1024, decodable := true } 200 5 (fun _ => 0)
    (fun _ => 0)).2.1 rfl

/-- C4 counterexample: a directory, not a regular file, whose name ends in a
matching image extension is discovered by the walk and receives an outcome,
refuting the part of the claim that exactly the regular files are
discovered. -/
theorem C4_counterexample_directory_entry_discovered :
    dir_a_jpg.isFile = false ∧
    (Compress.process_directory (("JPEG").toList) (fun _ => .ok) [dir_a_jpg]).length = 1 := by
  constructor
  · rfl
  · decide

/-- C4 as amended: process_directory discovers exactly the entries under the
input root, regular file or not, whose extension lowercased is one of jpg,
jpeg, png, webp; for each discovered entry it produces exactly one outcome,
mirrors the path relative to the input root under the output root, and always
rewrites the file extension to a dot followed by the lowercased output format,
which keeps the extension unchanged exactly when it already equals that
string. -/
theorem C4_walk_outcomes (output_format : List Char) (runFile : FSEntry → CompressResult) :
    ∀ tree : List FSEntry,
      Compress.process_directory output_format runFile tree =
        (tree.filter
          (fun e => decide (lowerStr (pySuffix e.name) ∈ Compress.image_extensions))).map
          (fun e => { relative_path := e.parts,
                      output_file := Compress.output_rel output_format e.parts,
                      res := runFile e }) := by
  intro tree
  induction tree with
  | nil => rfl
  | cons e rest ih =>
      by_cases h : lowerStr (pySuffix e.name) ∈ Compress.image_extensions
      · simp [Compress.process_directory, h, ih]
      · simp [Compress.process_directory, h, ih]

/-- C5: for any min_quality, target and encoder, whenever compress_image ends
with a present best_quality, that quality lies between min_quality and 95; the
search never produces a quality outside that interval. -/
theorem C5_quality_used_within_bounds (input : InputFile)
    (target_size_kb min_quality : Int) (enc : Int → Int) (fails : Nat → Nat) :
    ∀ b, (Compress.compress_image input target_size_kb min_quality enc fails).best_quality
        = some b → min_quality ≤ b ∧ b ≤ 95 := by
  intro b hb
  by_cases h1 : input.found = false
  · simp [Compress.compress_image, h1] at hb
  · by_cases h2 : input.size ≤ target_size_kb * 1024
    · simp [Compress.compress_image, h1, h2] at hb
    · by_cases h3 : input.decodable = false
      · simp [Compress.compress_image, h1, h2, h3] at hb
      · simp only [Compress.compress_image, if_neg h1, if_neg h2, if_neg h3] at hb
        have hbounds := searchLoop_bestQ_bounds enc (target_size_kb * 1024) fails
          min_quality min_quality 95 none [] 0 le_rfl le_rfl (fun c hc => by cases hc) b
        rcases hres : Compress.searchLoop enc (target_size_kb * 1024) fails
            min_quality 95 none [] 0 with ⟨r, ws2, n2⟩ | ⟨r, ws2⟩
        · rw [hres] at hb
          cases r with
          | none => simp at hb
          | some bq =>
              have hb2 : bq = b := by
                rcases hs : Compress.save_with_retry (fails n2) with _ | s <;>
                  simpa [hs] using hb
              subst hb2
              apply hbounds
              rw [hres]
              rfl
        · rw [hres] at hb
          simp only at hb
          apply hbounds
          rw [hres]
          exact hb

/-- C5 witness: a concrete run whose best_quality is 95, inside the bounds. -/
theorem C5_witness : (5:Int) ≤ 95 ∧ (95:Int) ≤ 95 :=
  C5_quality_used_within_bounds { found := true, size := 500 * 1024, decodable := true }
    100 5 (fun _ => 0) (fun _ => 0) 95
    (by simp +decide [Compress.compress_image, Compress.searchLoop,
      Compress.save_with_retry, Compress.save_retry_loop])

/-- C6: a destination write failing with PermissionError is retried up to 3
times before the PermissionError surfaces, each failed retry preceded by one
fixed 0.5 second sleep, and a call whose writes all succeed within the retries
produces exactly the same run, including the final file, as a call whose
writes all succeed immediately. -/
theorem C6_write_retry_policy :
    (∀ f, Compress.save_with_retry f = none ↔ 4 ≤ f) ∧
    (∀ f s, Compress.save_with_retry f = some s → s ≤ 3) ∧
    (∀ (input : InputFile) (target_size_kb min_quality : Int) (enc : Int → Int)
        (fails : Nat → Nat), (∀ n, fails n ≤ 3) →
      Compress.compress_image input target_size_kb min_quality enc fails =
        Compress.compress_image input target_size_kb min_quality enc (fun _ => 0)) :=
  ⟨save_with_retry_none_iff, save_with_retry_sleeps,
    fun input kb mq enc fails hf =>
      compress_image_fails_congr input kb mq enc fails (fun _ => 0) hf
        (fun _ => Nat.zero_le 3)⟩

/-- C6 witness: a run whose every save succeeds on retry 2 equals the run with
immediately successful saves. -/
theorem C6_witness :
    Compress.compress_image { found := true, size := 500 * 1024, decodable := true }
        100 5 (fun _ => 999999) (fun _ => 2) =
      Compress.compress_image { found := true, size := 500 * 1024, decodable := true }
        100 5 (fun _ => 999999) (fun _ => 0) :=
  C6_write_retry_policy.2.2 { found := true, size := 500 * 1024, decodable := true }
    100 5 (fun _ => 999999) (fun _ => 2) (fun n => by norm_num)

/-- C7: during a directory walk, the outcome of a discovered entry records
whatever result the per-file compression produced, including an error, and the
entries before and after it are processed exactly as they would be on their
own: a failure on one file never aborts the processing of sibling files. -/
theorem C7_failure_does_not_abort_walk (output_format : List Char)
    (runFile : FSEntry → CompressResult) (xs ys : List FSEntry) (e : FSEntry)
    (h : lowerStr (pySuffix e.name) ∈ Compress.image_extensions) :
    Compress.process_directory output_format runFile (xs ++ e :: ys) =
      Compress.process_directory output_format runFile xs ++
        { relative_path := e.parts,
          output_file := Compress.output_rel output_format e.parts,
          res := runFile e } :: Compress.process_directory output_format runFile ys := by
  induction xs with
  | nil => simp [Compress.process_directory, h]
  | cons x xs ih =>
      by_cases hx : lowerStr (pySuffix x.name) ∈ Compress.image_extensions <;>
        simp [Compress.process_directory, hx, ih]

/-- C7 witness: a walk in which the first file fails still processes the
second file and attaches the failure to the first outcome only. -/
theorem C7_witness :
    Compress.process_directory (("JPEG").toList)
        (fun f => if f = crash_jpg then .error (.exception .decodeFailed) else .ok)
        ([crash_jpg] ++ ok_png :: []) =
      Compress.process_directory (("JPEG").toList)
        (fun f => if f = crash_jpg then .error (.exception .decodeFailed) else .ok)
        [crash_jpg] ++
        { relative_path := ok_png.parts,
          output_file := Compress.output_rel (("JPEG").toList) ok_png.parts,
          res := (fun f => if f = crash_jpg then .error (.exception .decodeFailed)
            else .ok) ok_png } ::
        Compress.process_directory (("JPEG").toList)
          (fun f => if f = crash_jpg then .error (.exception .decodeFailed) else .ok) [] :=
  C7_failure_does_not_abort_walk (("JPEG").toList)
    (fun f => if f = crash_jpg then .error (.exception .decodeFailed) else .ok)
    [crash_jpg] [] ok_png (by decide)

/-- C8: the binary-search loop terminates, because each iteration strictly
shrinks the interval between min_q and max_q; concretely, for every integer
bounds, encoder and failure pattern, running the loop with any fuel larger
than the interval length finishes with exactly the value of the unbounded
loop. -/
theorem C8_search_terminates_within_fuel (enc : Int → Int) (target : Int)
    (fails : Nat → Nat) (fuel : Nat) (lo hi : Int) (best : Option Int)
    (ws : List Int) (n : Nat) (h : (hi + 1 - lo).toNat < fuel) :
    Compress.searchLoopFuel enc target fails fuel lo hi best ws n =
      some (Compress.searchLoop enc target fails lo hi best ws n) :=
  searchLoop_fuel_sufficient enc target fails fuel lo hi best ws n h

/-- C8 witness: the full starting interval from 5 to 95 is exhausted within 92
units of fuel. -/
theorem C8_witness :
    Compress.searchLoopFuel (fun _ => 0) 102400 (fun _ => 0) 92 5 95 none [] 0 =
      some (Compress.searchLoop (fun _ => 0) 102400 (fun _ => 0) 5 95 none [] 0) :=
  C8_search_terminates_within_fuel (fun _ => 0) 102400 (fun _ => 0) 92 5 95 none [] 0
    (by decide)

/-- C9: compress_image and process_directory as defined in src/compress.py and
as duplicated in src/compress_ui.py are extensionally equal: on every input,
encoder and failure pattern they produce the same results, errors and
output-file writes, so both GUIs are thin glue over the same core. -/
theorem C9_core_functions_equivalent :
    Compress.compress_image = CompressUi.compress_image ∧
    Compress.process_directory = CompressUi.process_directory :=
  ⟨compress_image_eq, process_directory_eq⟩

/-- C10: when min_quality exceeds 95 and the original readable image is larger
than the target, compress_image is a silent no-op: the loop body never runs,
nothing is written to output_path, nothing is printed, and the call returns
without raising any error. -/
theorem C10_silent_noop_min_quality_above_95 (input : InputFile)
    (target_size_kb min_quality : Int) (enc : Int → Int) (fails : Nat → Nat)
    (hfound : input.found = true) (hdec : input.decodable = true)
    (hbig : target_size_kb * 1024 < input.size) (hq : 95 < min_quality) :
    Compress.compress_image input target_size_kb min_quality enc fails =
      { result := .ok, best_quality := none, writes := [], printed := false } := by
  have hloop : Compress.searchLoop enc (target_size_kb * 1024) fails
      min_quality 95 none [] 0 = .ok none [] 0 := by
    rw [Compress.searchLoop]
    simp [show ¬ min_quality ≤ 95 by omega]
  simp only [Compress.compress_image, hfound, hdec, Bool.true_eq_false, if_false,
    if_neg (not_le.mpr hbig), hloop]

/-- C10 witness: a concrete oversized readable input with min_quality 96. -/
theorem C10_witness :
    Compress.compress_image { found := true, size := 500 * 1024, decodable := true }
        100 96 (fun _ => 0) (fun _ => 0) =
      { result := .ok, best_quality := none, writes := [], printed := false } :=
  C10_silent_noop_min_quality_above_95
    { found := true, size := 500 * 1024, decodable := true } 100 96 (fun _ => 0)
    (fun _ => 0) rfl rfl (by decide) (by decide)
